import Mathlib

/-!
Verification of the Ed25519 key-generation / signing / verification core
(`src/packages/crypto/src/keys/ed25519/index.browser.ts`).

Byte arrays are modelled as `List Nat` (each entry a byte value).  The external
curve primitive (`ed.getPublicKey`) and the asynchronous WebCrypto engine
(`crypto.get().subtle.importKey / sign / verify`) are modelled as parameters
packaged in a `Backend` structure; correctness facts about them appear as
explicit hypotheses of the theorems that need them.
-/

namespace Ed25519Core

/-- `PUBLIC_KEY_BYTE_LENGTH` in the source. -/
def PUBLIC_KEY_BYTE_LENGTH : Nat := 32

/-- `PRIVATE_KEY_BYTE_LENGTH` in the source (seed concatenated with public key). -/
def PRIVATE_KEY_BYTE_LENGTH : Nat := 64

/-- `KEYS_BYTE_LENGTH` in the source. -/
def KEYS_BYTE_LENGTH : Nat := 32

/-- Embedding of `concatKeys` (lines 87-94): allocate a zero-initialised
64-byte buffer (`new Uint8Array(PRIVATE_KEY_BYTE_LENGTH)`), then for
`i = 0 .. 31` write `privateKeyRaw[i]` at position `i` and `publicKey[i]` at
position `32 + i`.  Reading past the end of a `Uint8Array` in JavaScript
yields `undefined`, which a `Uint8Array` element assignment stores as `0`;
`List.getD _ _ 0` models exactly that. -/
def concatKeys (privateKeyRaw publicKey : List Nat) : List Nat :=
  (List.range KEYS_BYTE_LENGTH).foldl
    (fun pk i =>
      (pk.set i (privateKeyRaw.getD i 0)).set
        (KEYS_BYTE_LENGTH + i) (publicKey.getD i 0))
    (List.replicate PRIVATE_KEY_BYTE_LENGTH 0)

lemma concatKeys_loop_length (a b : List Nat) (k : Nat) :
    ((List.range k).foldl
      (fun pk i => (pk.set i (a.getD i 0)).set (32 + i) (b.getD i 0))
      (List.replicate 64 0)).length = 64 := by
  induction k with
  | zero => simp
  | succ k ih =>
    rw [List.range_succ, List.foldl_append]
    simp only [List.foldl_cons, List.foldl_nil]
    rw [List.length_set, List.length_set]
    exact ih

lemma concatKeys_loop_getElem? (a b : List Nat) (k : Nat) (hk : k ≤ 32) :
    ∀ j : Nat,
      ((List.range k).foldl
        (fun pk i => (pk.set i (a.getD i 0)).set (32 + i) (b.getD i 0))
        (List.replicate 64 0))[j]? =
      if j < k then some (a.getD j 0)
      else if j < 32 then some 0
      else if j < 32 + k then some (b.getD (j - 32) 0)
      else if j < 64 then some 0
      else none := by
  induction k with
  | zero =>
    intro j
    simp only [List.range_zero, List.foldl_nil, List.getElem?_replicate]
    have h0 : ¬ j < 0 := Nat.not_lt_zero j
    by_cases h32 : j < 32
    · have h64 : j < 64 := by omega
      simp [h0, h32, h64]
    · simp [h0, h32]
  | succ k ih =>
    intro j
    have hk' : k ≤ 32 := Nat.le_of_succ_le hk
    rw [List.range_succ, List.foldl_append]
    simp only [List.foldl_cons, List.foldl_nil]
    rw [List.getElem?_set, List.getElem?_set]
    simp only [List.length_set, concatKeys_loop_length]
    rw [ih hk' j]
    by_cases e1 : 32 + k = j
    · have h1 : ¬ k = j := by omega
      subst e1
      have h2 : 32 + k < 64 := by omega
      have c1 : ¬ 32 + k < 32 := by omega
      have c2 : 32 + k < 32 + (k + 1) := by omega
      have c3 : ¬ 32 + k < k + 1 := by omega
      simp [h1, h2, c1, c2, c3, Nat.add_sub_cancel_left]
    · by_cases e2 : k = j
      · subst e2
        have c1 : k < 64 := by omega
        have c2 : k < k + 1 := by omega
        simp [e1, c1, c2]
      · simp only [e1, e2, if_false]
        by_cases f1 : j < k
        · have : j < k + 1 := by omega
          simp [f1, this]
        · have g1 : ¬ j < k + 1 := by omega
          simp only [f1, g1, if_false]
          by_cases f2 : j < 32
          · simp [f2]
          · simp only [f2, if_false]
            by_cases f3 : j < 32 + k
            · have : j < 32 + (k + 1) := by omega
              simp [f3, this]
            · have g3 : ¬ j < 32 + (k + 1) := by omega
              simp [f3, g3]

/-- Pointwise characterisation of `concatKeys`:
the result is the 64-entry table taking the first 32 entries from
`privateKeyRaw` (default 0) and the next 32 from `publicKey` (default 0). -/
lemma concatKeys_eq_map (a b : List Nat) :
    concatKeys a b =
      (List.range 64).map
        (fun i => if i < 32 then a.getD i 0 else b.getD (i - 32) 0) := by
  apply List.ext_getElem?
  intro j
  rw [concatKeys]
  show ((List.range 32).foldl
      (fun pk i => (pk.set i (a.getD i 0)).set (32 + i) (b.getD i 0))
      (List.replicate 64 0))[j]? = _
  rw [concatKeys_loop_getElem? a b 32 (Nat.le_refl 32) j]
  rw [List.getElem?_map]
  by_cases hj : j < 64
  · rw [List.getElem?_range hj]
    by_cases h32 : j < 32
    · simp [h32]
    · simp [h32, hj]
  · rw [List.getElem?_eq_none (by simpa using Nat.le_of_not_lt hj)]
    have h32 : ¬ j < 32 := by omega
    have h64 : ¬ j < 32 + 32 := by omega
    simp [h32, h64, hj]

lemma concatKeys_getElem? (a b : List Nat) (j : Nat) :
    (concatKeys a b)[j]? =
      if j < 32 then some (a.getD j 0)
      else if j < 64 then some (b.getD (j - 32) 0)
      else none := by
  have h := concatKeys_loop_getElem? a b 32 (Nat.le_refl 32) j
  rw [concatKeys]
  show ((List.range 32).foldl
      (fun pk i => (pk.set i (a.getD i 0)).set (32 + i) (b.getD i 0))
      (List.replicate 64 0))[j]? = _
  rw [h]
  by_cases h32 : j < 32
  · simp [h32]
  · by_cases h64 : j < 64
    · have : j < 32 + 32 := by omega
      simp [h32, h64, this]
    · have : ¬ j < 32 + 32 := by omega
      simp [h32, h64, this]

lemma concatKeys_length (a b : List Nat) : (concatKeys a b).length = 64 := by
  rw [concatKeys_eq_map]
  simp

lemma concatKeys_take (a b : List Nat) (ha : a.length = 32) :
    (concatKeys a b).take 32 = a := by
  apply List.ext_getElem?
  intro j
  rw [List.getElem?_take]
  by_cases hj : j < 32
  · rw [if_pos hj, concatKeys_getElem?, if_pos hj]
    have hj' : j < a.length := by omega
    rw [List.getD_eq_getElem?_getD, List.getElem?_eq_getElem hj']
    simp
  · rw [if_neg hj]
    symm
    exact List.getElem?_eq_none (by omega)

lemma concatKeys_drop (a b : List Nat) (hb : b.length = 32) :
    (concatKeys a b).drop 32 = b := by
  apply List.ext_getElem?
  intro j
  rw [List.getElem?_drop, concatKeys_getElem?]
  have h32 : ¬ 32 + j < 32 := by omega
  rw [if_neg h32]
  by_cases hj : j < 32
  · have h64 : 32 + j < 64 := by omega
    rw [if_pos h64]
    have e : 32 + j - 32 = j := by omega
    rw [e]
    have hj' : j < b.length := by omega
    rw [List.getD_eq_getElem?_getD, List.getElem?_eq_getElem hj']
    simp
  · have h64 : ¬ 32 + j < 64 := by omega
    rw [if_neg h64]
    symm
    exact List.getElem?_eq_none (by omega)

/-- The `privateKey` / `publicKey` fields of the `Uint8ArrayKeyPair` returned
by the generators. -/
structure KeyPair where
  privateKey : List Nat
  publicKey : List Nat
deriving DecidableEq

/-- Embedding of `generateKey` (lines 14-26).  `ed.utils.randomPrivateKey()`
is the external randomness source; the 32 bytes it returns are passed in as
`privateKeyRaw`.  `ed.getPublicKey` is the external curve primitive, passed
in as `derivePub`. -/
def generateKey (derivePub : List Nat → List Nat)
    (privateKeyRaw : List Nat) : KeyPair :=
  let publicKey := derivePub privateKeyRaw
  { privateKey := concatKeys privateKeyRaw publicKey, publicKey := publicKey }

/-- Model of the JavaScript value passed as the `seed` argument of
`generateKeyFromSeed`.  `isUint8Array` records whether
`seed instanceof Uint8Array` holds; `length` models the JavaScript
expression `seed.length` (`none` when the value has no numeric `length`
property, in which case `seed.length !== 32` is true); `bytes` gives the
byte contents when the value is a `Uint8Array`. -/
structure JSVal where
  isUint8Array : Bool
  length : Option Nat
  bytes : List Nat
deriving DecidableEq

/-- A genuine `Uint8Array` argument: `length` is its element count. -/
def JSVal.ofBytes (bs : List Nat) : JSVal :=
  { isUint8Array := true, length := some bs.length, bytes := bs }

/-- The two `TypeError`s `generateKeyFromSeed` can throw:
`invalidSeedLength` is `'"seed" must be 32 bytes in length.'` and
`invalidSeedType` is `'"seed" must be a node.js Buffer, or Uint8Array.'`. -/
inductive SeedError where
  | invalidSeedLength
  | invalidSeedType
deriving DecidableEq

/-- Embedding of `generateKeyFromSeed` (lines 31-48).  The validation order
is the source's: the length test comes first, the `instanceof` test second;
on success the seed is used directly as the raw private key. -/
def generateKeyFromSeed (derivePub : List Nat → List Nat) (seed : JSVal) :
    Except SeedError KeyPair :=
  if seed.length ≠ some KEYS_BYTE_LENGTH then
    .error .invalidSeedLength
  else if !seed.isUint8Array then
    .error .invalidSeedType
  else
    let privateKeyRaw := seed.bytes
    let publicKey := derivePub privateKeyRaw
    .ok { privateKey := concatKeys privateKeyRaw publicKey
          publicKey := publicKey }

/-- Model of the `JsonWebKey` object built in `hashAndSign` (lines 60-67).
The source stores `x` and `d` as base64url strings; base64url encoding is a
bijection between byte strings and the strings it produces, so the model
keeps the underlying bytes. -/
structure Jwk where
  crv : String
  kty : String
  x : List Nat
  d : List Nat
  ext : Bool
  key_ops : List String
deriving DecidableEq

/-- The `privateKeyRaw` normalisation and JWK construction in `hashAndSign`
(lines 51-67): `privateKey.subarray(0, 32)` is `take 32`,
`privateKey.subarray(32)` is `drop 32`. -/
def mkJwk (privateKey : List Nat) : Jwk :=
  let privateKeyRaw :=
    if privateKey.length = PRIVATE_KEY_BYTE_LENGTH then privateKey.take 32
    else privateKey
  { crv := "Ed25519"
    kty := "OKP"
    x := privateKey.drop 32
    d := privateKeyRaw
    ext := true
    key_ops := ["sign"] }

/-- The external engine (`crypto.get().subtle`) together with the curve
primitive `ed.getPublicKey`.  `importSignKey` models
`importKey('jwk', jwk, …)` and returns `none` when the engine rejects the
key material; `signWith` models `sign` on an imported key; `importVerifyKey`
models `importKey('raw', material, …)`; `verifyWith` models `verify`.
`SK` and `VK` are the engine's opaque `CryptoKey` handles. -/
structure Backend (SK VK : Type) where
  derivePub : List Nat → List Nat
  importSignKey : Jwk → Option SK
  signWith : SK → List Nat → List Nat
  importVerifyKey : List Nat → Option VK
  verifyWith : VK → List Nat → List Nat → Bool

/-- Errors of the suspending operations: a rejected key import surfaces as a
backend error of the corresponding session. -/
inductive BackendError where
  | signingBackend
  | verificationBackend
deriving DecidableEq

/-- Observable outcome of one invocation of a signing session: the cached
`key` afterwards, the returned signature (or propagated import error), and
how many engine import and sign calls the invocation made. -/
structure SignCallResult (SK : Type) where
  newKey : Option SK
  result : Except BackendError (List Nat)
  imports : Nat
  signs : Nat

/-- One invocation of the closure returned by `hashAndSign` (lines 69-74):
`key ??= await importKey('jwk', jwk, …)` imports only when the cached `key`
is still unset; a failed import propagates and leaves the cache unset;
otherwise `subtle.sign` runs on the cached key with the captured message. -/
def signCall {SK VK : Type} (B : Backend SK VK) (jwk : Jwk) (msg : List Nat)
    (key : Option SK) : SignCallResult SK :=
  match key with
  | some k =>
    { newKey := some k, result := .ok (B.signWith k msg)
      imports := 0, signs := 1 }
  | none =>
    match B.importSignKey jwk with
    | none =>
      { newKey := none, result := .error .signingBackend
        imports := 1, signs := 0 }
    | some k =>
      { newKey := some k, result := .ok (B.signWith k msg)
        imports := 1, signs := 1 }

/-- `n` successive invocations of one signing session built by
`hashAndSign privateKey msg`, starting from the closure's initial
`key = null`: the final cached key and the total numbers of engine import
and sign calls. -/
def runSignSession {SK VK : Type} (B : Backend SK VK)
    (privateKey msg : List Nat) : Nat → Option SK × Nat × Nat
  | 0 => (none, 0, 0)
  | n + 1 =>
    let p := runSignSession B privateKey msg n
    let r := signCall B (mkJwk privateKey) msg p.1
    (r.newKey, p.2.1 + r.imports, p.2.2 + r.signs)

/-- Observable outcome of one invocation of a verification session. -/
structure VerifyCallResult (VK : Type) where
  newKey : Option VK
  result : Except BackendError Bool
  imports : Nat

/-- One invocation of the closure returned by `hashAndVerify` (lines 80-84):
`key ??= await importKey('raw', publicKey.buffer, …)` imports only when the
cached `key` is unset; a rejected import propagates as
`verificationBackend`; otherwise the engine's boolean verdict is returned
unchanged.  The key material handed to the import is passed in as
`material` (see `importedVerifyMaterial`). -/
def verifyCall {SK VK : Type} (B : Backend SK VK)
    (material sig msg : List Nat) (key : Option VK) : VerifyCallResult VK :=
  match key with
  | some k =>
    { newKey := some k, result := .ok (B.verifyWith k sig msg), imports := 0 }
  | none =>
    match B.importVerifyKey material with
    | none =>
      { newKey := none, result := .error .verificationBackend, imports := 1 }
    | some k =>
      { newKey := some k, result := .ok (B.verifyWith k sig msg)
        imports := 1 }

/-- A JavaScript `Uint8Array`: a view of `len` elements starting at byte
offset `off` into a backing `ArrayBuffer` holding the bytes `buf`. -/
structure U8View where
  buf : List Nat
  off : Nat
  len : Nat
deriving DecidableEq

/-- The bytes the view denotes. -/
def U8View.bytes (v : U8View) : List Nat := (v.buf.drop v.off).take v.len

/-- The key material `hashAndVerify` hands to the engine import (line 81):
the source passes `publicKey.buffer`, i.e. the whole backing ArrayBuffer of
the view, not the viewed bytes. -/
def importedVerifyMaterial (publicKey : U8View) : List Nat := publicKey.buf

/-- A concrete stand-in engine used to instantiate the engine-parameterised
theorems on closed inputs: both kinds of context are byte lists, the
derived public key is the seed itself, a signature is the context followed
by the message, and verification recomputes it. -/
def toyBackend : Backend (List Nat) (List Nat) :=
  { derivePub := fun s => s
    importSignKey := fun j => some j.d
    signWith := fun k m => k ++ m
    importVerifyKey := fun pk => some pk
    verifyWith := fun k sig m => sig == k ++ m }

/-- The pure signature function realised by `toyBackend`. -/
def toyEdSign (s m : List Nat) : List Nat := s ++ m

lemma generateKeyFromSeed_ok (dp : List Nat → List Nat) (seed : List Nat)
    (hseed : seed.length = 32) :
    generateKeyFromSeed dp (JSVal.ofBytes seed) =
      .ok (generateKey dp seed) := by
  simp [generateKeyFromSeed, JSVal.ofBytes, KEYS_BYTE_LENGTH, hseed,
    generateKey]

lemma keyPair_source_eq (dp : List Nat → List Nat) (seed : List Nat)
    (hseed : seed.length = 32) (kp : KeyPair)
    (h : kp = generateKey dp seed ∨
      generateKeyFromSeed dp (JSVal.ofBytes seed) = .ok kp) :
    kp = generateKey dp seed := by
  rcases h with h | h
  · exact h
  · rw [generateKeyFromSeed_ok dp seed hseed] at h
    rw [Except.ok.injEq] at h
    exact h.symm

lemma mkJwk_generateKey (dp : List Nat → List Nat) (seed : List Nat)
    (hseed : seed.length = 32) (hpub : (dp seed).length = 32) :
    mkJwk (generateKey dp seed).privateKey =
      { crv := "Ed25519", kty := "OKP", x := dp seed, d := seed,
        ext := true, key_ops := ["sign"] } := by
  simp [mkJwk, generateKey, PRIVATE_KEY_BYTE_LENGTH, concatKeys_length,
    concatKeys_take _ _ hseed, concatKeys_drop _ _ hpub]

/-- C1: every key pair returned by `generateKey` or `generateKeyFromSeed`
(seed of 32 bytes, curve primitive answering 32 bytes) has a 64-byte
private key whose bytes [0,32) are the seed, whose bytes [32,64) are the
derived public key, and whose trailing 32 bytes equal the returned public
key. -/
theorem generated_privateKey_layout
    (derivePub : List Nat → List Nat) (seed : List Nat)
    (hseed : seed.length = 32) (hpub : (derivePub seed).length = 32) :
    ∀ kp : KeyPair,
      (kp = generateKey derivePub seed ∨
        generateKeyFromSeed derivePub (JSVal.ofBytes seed) = .ok kp) →
      kp.privateKey.length = 64 ∧ kp.privateKey.take 32 = seed ∧
      kp.privateKey.drop 32 = derivePub seed ∧
      kp.privateKey.drop 32 = kp.publicKey := by
  intro kp hkp
  have hkp' := keyPair_source_eq derivePub seed hseed kp hkp
  subst hkp'
  simp only [generateKey]
  exact ⟨concatKeys_length _ _, concatKeys_take _ _ hseed,
    concatKeys_drop _ _ hpub, concatKeys_drop _ _ hpub⟩

theorem generated_privateKey_layout_witness :
    (generateKey (fun _ => List.replicate 32 1)
      (List.replicate 32 0)).privateKey.length = 64 :=
  (generated_privateKey_layout (fun _ => List.replicate 32 1)
    (List.replicate 32 0) (by simp) (by simp)
    (generateKey (fun _ => List.replicate 32 1) (List.replicate 32 0))
    (Or.inl rfl)).1

/-- C4: `generateKeyFromSeed` is deterministic — two calls on the same
32-byte `Uint8Array` seed return identical results, and the result is the
key pair computed purely from the seed by the curve primitive.  The
embedded function consumes no randomness: unlike `generateKey`, whose
embedding takes the 32 random bytes of `ed.utils.randomPrivateKey()` as an
input, its output depends on nothing but `derivePub` and the seed. -/
theorem generateKeyFromSeed_deterministic
    (derivePub : List Nat → List Nat) (seed : List Nat)
    (hseed : seed.length = 32) :
    generateKeyFromSeed derivePub (JSVal.ofBytes seed) =
      generateKeyFromSeed derivePub (JSVal.ofBytes seed) ∧
    generateKeyFromSeed derivePub (JSVal.ofBytes seed) =
      .ok { privateKey := concatKeys seed (derivePub seed)
            publicKey := derivePub seed } := by
  refine ⟨rfl, ?_⟩
  simp [generateKeyFromSeed, JSVal.ofBytes, KEYS_BYTE_LENGTH, hseed]

theorem generateKeyFromSeed_deterministic_witness :
    generateKeyFromSeed (fun s => s) (JSVal.ofBytes (List.replicate 32 7)) =
      .ok { privateKey := concatKeys (List.replicate 32 7)
              (List.replicate 32 7)
            publicKey := List.replicate 32 7 } :=
  (generateKeyFromSeed_deterministic (fun s => s) (List.replicate 32 7)
    (by simp)).2

/-- C5: a `Uint8Array` seed of any length other than 32 makes
`generateKeyFromSeed` fail with the invalid-seed-length error and return no
key pair; the outcome is the same for every curve primitive, so the failure
happens before any engine interaction. -/
theorem generateKeyFromSeed_wrong_length
    (seed : List Nat) (hlen : seed.length ≠ 32) :
    ∀ dp dp2 : List Nat → List Nat,
      generateKeyFromSeed dp (JSVal.ofBytes seed) =
        .error .invalidSeedLength ∧
      generateKeyFromSeed dp (JSVal.ofBytes seed) =
        generateKeyFromSeed dp2 (JSVal.ofBytes seed) := by
  intro dp dp2
  have h : generateKeyFromSeed dp (JSVal.ofBytes seed) =
      .error .invalidSeedLength := by
    simp [generateKeyFromSeed, JSVal.ofBytes, KEYS_BYTE_LENGTH, hlen]
  have h2 : generateKeyFromSeed dp2 (JSVal.ofBytes seed) =
      .error .invalidSeedLength := by
    simp [generateKeyFromSeed, JSVal.ofBytes, KEYS_BYTE_LENGTH, hlen]
  exact ⟨h, h.trans h2.symm⟩

theorem generateKeyFromSeed_wrong_length_witness :
    generateKeyFromSeed (fun s => s) (JSVal.ofBytes (List.replicate 16 0)) =
      .error .invalidSeedLength :=
  (generateKeyFromSeed_wrong_length (List.replicate 16 0) (by simp)
    (fun s => s) (fun _ => [])).1

/-- C6 counterexample: a value that is not a `Uint8Array` and whose `length`
property is 16 is rejected with the invalid-seed-LENGTH error, not the
invalid-seed-type error, because the length check precedes the
`instanceof` check. -/
theorem generateKeyFromSeed_type_check_order :
    generateKeyFromSeed (fun s => s)
        { isUint8Array := false, length := some 16, bytes := [] } =
      .error .invalidSeedLength ∧
    generateKeyFromSeed (fun s => s)
        { isUint8Array := false, length := some 16, bytes := [] } ≠
      .error .invalidSeedType := by
  constructor
  · rfl
  · intro h
    rw [show generateKeyFromSeed (fun s => s)
        { isUint8Array := false, length := some 16, bytes := [] } =
        Except.error SeedError.invalidSeedLength from rfl] at h
    injection h with h'
    cases h'

/-- C6 (amended): a seed value that is not a `Uint8Array` always fails in
the same synchronous call; the error is the invalid-seed-type error when
its `length` property is 32 and the invalid-seed-length error otherwise. -/
theorem generateKeyFromSeed_not_buffer
    (derivePub : List Nat → List Nat) (v : JSVal)
    (hv : v.isUint8Array = false) :
    generateKeyFromSeed derivePub v =
      .error (if v.length = some 32 then .invalidSeedType
              else .invalidSeedLength) := by
  by_cases h : v.length = some 32
  · simp [generateKeyFromSeed, KEYS_BYTE_LENGTH, h, hv]
  · simp [generateKeyFromSeed, KEYS_BYTE_LENGTH, h, hv]

theorem generateKeyFromSeed_not_buffer_witness :
    generateKeyFromSeed (fun s => s)
        { isUint8Array := false, length := some 32, bytes := [] } =
      .error .invalidSeedType := by
  have h := generateKeyFromSeed_not_buffer (fun s => s)
    { isUint8Array := false, length := some 32, bytes := [] } rfl
  simpa using h

/-- C7: within one signing session the engine import runs at most once.  If
the import of the session's JWK succeeds with context `k`, then after any
`n ≥ 1` invocations the session has performed exactly one engine import and
`n` engine sign calls, and the cached context is `k` — so two invocations
cause one import and two sign calls, and a successful import is never
redone. -/
theorem signSession_single_import {SK VK : Type} (B : Backend SK VK)
    (privateKey msg : List Nat) (k : SK)
    (himp : B.importSignKey (mkJwk privateKey) = some k) :
    ∀ n : Nat, 1 ≤ n →
      runSignSession B privateKey msg n = (some k, 1, n) := by
  intro n hn
  induction n with
  | zero => omega
  | succ m ih =>
    by_cases hm : 1 ≤ m
    · simp [runSignSession, ih hm, signCall]
    · have hm0 : m = 0 := by omega
      subst hm0
      simp [runSignSession, signCall, himp]

theorem signSession_single_import_witness :
    runSignSession toyBackend (List.replicate 64 0) [1] 2 =
      (some (List.replicate 32 0), 1, 2) :=
  signSession_single_import toyBackend (List.replicate 64 0) [1]
    (List.replicate 32 0) (by decide) 2 (by decide)

/-- C2: round trip.  For any key pair produced by `generateKey` or
`generateKeyFromSeed` from a 32-byte seed, and any message, with the
external engine axiomatized as a correct Ed25519 backend — importing a
private JWK whose `x` is the public key derived from its 32-byte `d`
succeeds and the resulting context signs with `d`, and importing the raw
public key derived from a 32-byte seed succeeds with a context that accepts
that seed's genuine signatures — one invocation of the signer returned by
`hashAndSign` yields a signature that one invocation of the verifier
returned by `hashAndVerify` resolves to `true` on. -/
theorem sign_verify_roundtrip {SK VK : Type} (B : Backend SK VK)
    (edSign : List Nat → List Nat → List Nat) (seed msg : List Nat)
    (hseed : seed.length = 32) (hpub : (B.derivePub seed).length = 32)
    (himpS : ∀ j : Jwk, j.d.length = 32 → j.x = B.derivePub j.d →
      ∃ sk : SK, B.importSignKey j = some sk ∧
        ∀ m, B.signWith sk m = edSign j.d m)
    (himpV : ∀ s : List Nat, s.length = 32 →
      ∃ vk : VK, B.importVerifyKey (B.derivePub s) = some vk ∧
        ∀ m, B.verifyWith vk (edSign s m) m = true) :
    ∀ kp : KeyPair,
      (kp = generateKey B.derivePub seed ∨
        generateKeyFromSeed B.derivePub (JSVal.ofBytes seed) = .ok kp) →
      ∃ sig : List Nat,
        (signCall B (mkJwk kp.privateKey) msg none).result = .ok sig ∧
        (verifyCall B kp.publicKey sig msg none).result = .ok true := by
  intro kp hkp
  have hkp' := keyPair_source_eq B.derivePub seed hseed kp hkp
  subst hkp'
  have hjwk := mkJwk_generateKey B.derivePub seed hseed hpub
  obtain ⟨sk, hsk, hsign⟩ := himpS
    { crv := "Ed25519", kty := "OKP", x := B.derivePub seed, d := seed,
      ext := true, key_ops := ["sign"] } hseed rfl
  obtain ⟨vk, hvk, hver⟩ := himpV seed hseed
  refine ⟨edSign seed msg, ?_, ?_⟩
  · rw [hjwk]
    simp [signCall, hsk, hsign msg]
  · have hp : (generateKey B.derivePub seed).publicKey = B.derivePub seed :=
      rfl
    rw [hp]
    simp [verifyCall, hvk, hver msg]

theorem sign_verify_roundtrip_witness :
    ∃ sig : List Nat,
      (signCall toyBackend
        (mkJwk (generateKey toyBackend.derivePub
          (List.replicate 32 2)).privateKey) [9] none).result = .ok sig ∧
      (verifyCall toyBackend
        (generateKey toyBackend.derivePub (List.replicate 32 2)).publicKey
        sig [9] none).result = .ok true :=
  sign_verify_roundtrip toyBackend toyEdSign (List.replicate 32 2) [9]
    (by decide) (by decide)
    (fun j _ _ => ⟨j.d, rfl, fun m => rfl⟩)
    (fun s _ => ⟨s, rfl, fun m => by simp [toyBackend, toyEdSign]⟩)
    (generateKey toyBackend.derivePub (List.replicate 32 2)) (Or.inl rfl)

/-- C8: one invocation of the verifier returned by `hashAndVerify` resolves
to the engine's boolean verdict whenever the key material imports — so an
invalid but well-formed signature resolves to `.ok false`, never an error —
and produces the verification backend error exactly when the engine rejects
the key material at import. -/
theorem hashAndVerify_resolves_boolean {SK VK : Type} (B : Backend SK VK)
    (material sig msg : List Nat) :
    (∃ vk : VK, B.importVerifyKey material = some vk ∧
      (verifyCall B material sig msg none).result =
        .ok (B.verifyWith vk sig msg)) ∨
    (B.importVerifyKey material = none ∧
      (verifyCall B material sig msg none).result =
        .error .verificationBackend) := by
  cases h : B.importVerifyKey material with
  | none => exact Or.inr ⟨rfl, by simp [verifyCall, h]⟩
  | some vk => exact Or.inl ⟨vk, rfl, by simp [verifyCall, h]⟩

/-- C9: `hashAndVerify` imports `publicKey.buffer`, the whole backing
ArrayBuffer of the view: for a well-formed 32-byte `Uint8Array` the
imported material equals the view's bytes exactly when the view spans its
entire buffer, and a proper view into a larger buffer imports material
different from its bytes. -/
theorem hashAndVerify_imports_backing_buffer :
    (∀ pk : U8View, pk.off + pk.len ≤ pk.buf.length → pk.len = 32 →
      (importedVerifyMaterial pk = pk.bytes ↔
        pk.off = 0 ∧ pk.buf.length = 32)) ∧
    (∃ pk : U8View, pk.off + pk.len ≤ pk.buf.length ∧ pk.len = 32 ∧
      0 < pk.off ∧ importedVerifyMaterial pk ≠ pk.bytes) := by
  constructor
  · intro pk hwf hlen
    constructor
    · intro h
      have hl := congrArg List.length h
      simp only [importedVerifyMaterial, U8View.bytes, List.length_take,
        List.length_drop, hlen] at hl
      have hge : 32 ≤ pk.buf.length - pk.off := by omega
      rw [Nat.min_eq_left hge] at hl
      omega
    · rintro ⟨h0, h32⟩
      show pk.buf = (pk.buf.drop pk.off).take pk.len
      rw [h0, hlen, List.drop_zero,
        List.take_of_length_le (by omega)]
  · refine ⟨⟨List.replicate 33 0, 1, 32⟩, by simp, rfl, by decide, ?_⟩
    decide

theorem hashAndVerify_imports_backing_buffer_witness :
    importedVerifyMaterial ⟨List.replicate 32 5, 0, 32⟩ =
      U8View.bytes ⟨List.replicate 32 5, 0, 32⟩ :=
  ((hashAndVerify_imports_backing_buffer).1 ⟨List.replicate 32 5, 0, 32⟩
    (by simp) rfl).mpr ⟨rfl, by simp⟩

/-- C10: `concatKeys` is total and yields a 64-byte result for inputs of any
lengths: position `i < 32` holds byte `i` of the first input and position
`32 + i` holds byte `i` of the second, where reading past the end of an
input gives 0 — so longer inputs are silently truncated to their first 32
bytes and positions beyond a shorter input's length are filled with 0. -/
theorem concatKeys_total_layout (a b : List Nat) :
    (concatKeys a b).length = 64 ∧
    (∀ i, i < 32 → (concatKeys a b)[i]? = some (a.getD i 0)) ∧
    (∀ i, i < 32 → (concatKeys a b)[32 + i]? = some (b.getD i 0)) := by
  refine ⟨concatKeys_length a b, ?_, ?_⟩
  · intro i hi
    rw [concatKeys_getElem?, if_pos hi]
  · intro i hi
    rw [concatKeys_getElem?]
    have h1 : ¬ 32 + i < 32 := by omega
    have h2 : 32 + i < 64 := by omega
    rw [if_neg h1, if_pos h2]
    have e : 32 + i - 32 = i := by omega
    rw [e]

theorem concatKeys_total_layout_witness :
    (concatKeys [5] [7])[0]? = some 5 :=
  (concatKeys_total_layout [5] [7]).2.1 0 (by decide)

/-- C3: evaluation at the failing input.  For the seed of 32 zero bytes
(with the curve primitive answering 32 one-bytes as the embedded public
key), the JWK `hashAndSign` builds from the bare 32-byte seed and the JWK
it builds from the 64-byte stored private key carry the same `d` (the
seed), but different `x`: the bare-seed JWK's `x` is empty (it comes from
`privateKey.subarray(32)`, which is empty for a 32-byte input), while the
stored-key JWK's `x` is the embedded public key.  The two signers therefore
hand different key material to the engine; a WebCrypto-conformant engine
rejects an OKP JWK whose `x` is not a valid public key, so the bare-seed
signer fails instead of signing identically. -/
theorem hashAndSign_bare_seed_jwk_mismatch :
    (mkJwk (List.replicate 32 0)).d =
      (mkJwk (concatKeys (List.replicate 32 0) (List.replicate 32 1))).d ∧
    (mkJwk (List.replicate 32 0)).x = [] ∧
    (mkJwk (concatKeys (List.replicate 32 0) (List.replicate 32 1))).x =
      List.replicate 32 1 ∧
    (mkJwk (List.replicate 32 0)).x ≠
      (mkJwk (concatKeys (List.replicate 32 0)
        (List.replicate 32 1))).x := by
  decide

end Ed25519Core
